import Mathlib

set_option autoImplicit false

/-! Shallow embedding of the keyed record store and its notification
channels, translated from `src/observer.ts` (the `createSubject`
publish/subscribe primitive) and the unnamed database module (the generic
`Database` class: `set`, `get`, `each`, `getBestByScore`,
`setBestStrategy`, `getBestWiki`, `onBeforeSet`, `onRead`). The mapping
`private db: Record<string, T> = {}` is a plain JS object, so the model
carries both its own properties and its prototype chain: reads of missing
keys can hit inherited `Object.prototype` members, and assignment under
the key "__proto__" invokes the inherited accessor setter instead of
creating an own property. -/

/-- JS `Number.MIN_SAFE_INTEGER`, the sentinel that initializes `bestScore`
in both best-record scans. Scores are modelled as integers; the two scans
only compare scores with `>` and `===`, both exact on this domain. -/
def minSafeInteger : Int := -(2 ^ 53 - 1)

/-- The numeric value of a decimal digit character, if it is one. -/
def charDigit (c : Char) : Option Nat :=
  if 48 ≤ c.toNat ∧ c.toNat ≤ 57 then some (c.toNat - 48) else none

/-- Reads a run of decimal digits left to right, accumulating the value;
`none` if any character is not a digit. -/
def digitsVal : List Char → Nat → Option Nat
  | [], acc => some acc
  | c :: cs, acc =>
    match charDigit c with
    | none => none
    | some d => digitsVal cs (acc * 10 + d)

/-- ECMAScript array-index test: a string property key is an array index
when it is the canonical decimal numeral (digits only, no leading zero
except for "0" itself) of a natural number below `2 ^ 32 - 1`.
`Object.values` enumerates such keys first, in ascending numeric order,
before the remaining string keys in insertion order. -/
def toArrayIndex (s : String) : Option Nat :=
  match s.data with
  | [] => none
  | c :: cs =>
    match digitsVal (c :: cs) 0 with
    | none => none
    | some n =>
      if (c = Char.ofNat 48 ∧ cs ≠ []) ∨ ¬ n < 2 ^ 32 - 1 then none else some n

/-- The key "__proto__", whose assignment and lookup on a plain object hit
the inherited `Object.prototype.__proto__` accessor instead of creating
or reading an own property. -/
def protoKey : String := "__proto__"

/-- Own property names of `Object.prototype` that a property read on a
plain object reaches through the prototype chain when the key was never
set. All are data properties holding function objects; the accessor
"__proto__" is handled separately. -/
def objectProtoMembers : List String :=
  ["constructor", "hasOwnProperty", "isPrototypeOf", "propertyIsEnumerable",
    "toLocaleString", "toString", "valueOf", "__defineGetter__",
    "__defineSetter__", "__lookupGetter__", "__lookupSetter__"]

/-- A value the property read `this.db[key]` can produce at runtime:
`undef` is `undefined`; `record t` is a stored record; `builtin k` is the
inherited member `Object.prototype[k]` (a function object); `protoObject`
is `Object.prototype` itself (what reading "__proto__" yields while the
prototype is unreplaced); `viaProto t k` is the result of a lookup that
continues through a record `t` installed as the prototype — it depends on
the field layout of the record type, which this generic embedding leaves
abstract, so it is kept opaque. -/
inductive JsValue (T : Type) where
  | undef : JsValue T
  | record : T → JsValue T
  | builtin : String → JsValue T
  | protoObject : JsValue T
  | viaProto : T → String → JsValue T
deriving DecidableEq

/-- The mapping `private db: Record<string, T> = {}` of the `Database`
class, a plain JS object: `own` is its own enumerable properties as the
insertion-ordered key/value list (one entry per key), and `proto` is its
`[[Prototype]]` slot — `none` while it is still `Object.prototype`,
`some t` once an assignment under the key "__proto__" has replaced it
with the record `t`. -/
structure JsObject (T : Type) where
  own : List (String × T)
  proto : Option T
deriving DecidableEq

/-- The fresh object literal `{}` the store is constructed with. -/
def emptyObject {T : Type} : JsObject T :=
  { own := [], proto := none }

/-- `this.db[key]` (ordinary `[[Get]]`): an own property wins; otherwise
the key "__proto__" hits the inherited accessor and yields the current
prototype; any other missing key continues along the prototype chain —
through the installed record when one was set under "__proto__", else to
`Object.prototype`, where member names ("toString", "constructor", ...)
yield the inherited function object and everything else is `undefined`. -/
def dbGet {T : Type} (obj : JsObject T) (k : String) : JsValue T :=
  match obj.own.find? (fun p => p.1 = k) with
  | some p => JsValue.record p.2
  | none =>
    if k = protoKey then
      match obj.proto with
      | some t => JsValue.record t
      | none => JsValue.protoObject
    else
      match obj.proto with
      | some t => JsValue.viaProto t k
      | none =>
        if objectProtoMembers.contains k then JsValue.builtin k else JsValue.undef

/-- `this.db[item.id] = item` (ordinary `[[Set]]`): an existing own key
keeps its position in the key sequence and gets the new value; the key
"__proto__" finds the inherited accessor, whose setter replaces the
`[[Prototype]]` slot with the record and creates no own property; any
other absent key is appended as a new own property at the end. -/
def dbSet {T : Type} (idOf : T → String) (obj : JsObject T) (item : T) : JsObject T :=
  if obj.own.any (fun p => p.1 = idOf item) then
    { obj with
        own := obj.own.map (fun p => if p.1 = idOf item then (idOf item, item) else p) }
  else if idOf item = protoKey then
    { obj with proto := some item }
  else
    { obj with own := obj.own ++ [(idOf item, item)] }

/-- The store produced by a sequence of `set` calls on a store that
starts with the fresh object literal `{}`. -/
def applyAll {T : Type} (idOf : T → String) (ops : List T) : JsObject T :=
  ops.foldl (dbSet idOf) emptyObject

/-- The Read Event `{ id: string }` published by `get` on its channel. -/
structure OnReadEvent where
  id : String
deriving DecidableEq

/-- `get(key)`: publishes one Read Event on the read channel, then returns
`this.db[key]`. The pair records the returned value and the events
published (in publication order, all before the return). -/
def getOp {T : Type} (obj : JsObject T) (k : String) :
    JsValue T × List OnReadEvent :=
  (dbGet obj k, [{ id := k }])

theorem find_map_replace {T : Type} (id : String) (item : T) (db : List (String × T))
    (h : db.any (fun p => p.1 = id) = true) :
    (db.map (fun p => if p.1 = id then (id, item) else p)).find? (fun p => p.1 = id) =
      some (id, item) := by
  induction db with
  | nil => simp at h
  | cons p rest ih =>
    by_cases hp : p.1 = id
    · simp only [List.map_cons, if_pos hp]
      exact List.find?_cons_of_pos _ (by simp)
    · simp only [List.any_cons, Bool.or_eq_true, decide_eq_true_eq] at h
      rcases h with h | h
      · exact absurd h hp
      · simp only [List.map_cons, if_neg hp]
        rw [List.find?_cons_of_neg _ (by simpa using hp)]
        exact ih h

theorem find_map_replace_other {T : Type} (id : String) (item : T) (k : String)
    (hk : k ≠ id) (db : List (String × T)) :
    (db.map (fun p => if p.1 = id then (id, item) else p)).find? (fun p => p.1 = k) =
      db.find? (fun p => p.1 = k) := by
  induction db with
  | nil => rfl
  | cons p rest ih =>
    by_cases hp : p.1 = id
    · have hpk : ¬ p.1 = k := by
        intro hc
        exact hk (hc ▸ hp ▸ rfl)
      have hik : ¬ id = k := fun hc => hk hc.symm
      simp only [List.map_cons, if_pos hp]
      rw [List.find?_cons_of_neg _ (by simpa using hik),
        List.find?_cons_of_neg _ (by simpa using hpk)]
      exact ih
    · simp only [List.map_cons, if_neg hp]
      by_cases hpk : p.1 = k
      · rw [List.find?_cons_of_pos _ (by simpa using hpk),
          List.find?_cons_of_pos _ (by simpa using hpk)]
      · rw [List.find?_cons_of_neg _ (by simpa using hpk),
          List.find?_cons_of_neg _ (by simpa using hpk)]
        exact ih

theorem find_append_of_not_any {T : Type} (k : String) (x : String × T)
    (db : List (String × T)) (h : db.any (fun p => p.1 = k) = false) :
    (db ++ [x]).find? (fun p => p.1 = k) = [x].find? (fun p => p.1 = k) := by
  induction db with
  | nil => rfl
  | cons p rest ih =>
    simp only [List.any_cons, Bool.or_eq_false_iff, decide_eq_false_iff_not] at h
    simp only [List.cons_append]
    rw [List.find?_cons_of_neg _ (by simpa using h.1)]
    exact ih (by simpa using h.2)

/-- A set under an id other than "__proto__" leaves an own entry for that
id: the replaced one in place, or a fresh one appended. -/
theorem ownFind_set_self {T : Type} (idOf : T → String) (obj : JsObject T) (item : T)
    (h : idOf item ≠ protoKey) :
    (dbSet idOf obj item).own.find? (fun p => p.1 = idOf item) =
      some (idOf item, item) := by
  unfold dbSet
  by_cases hany : obj.own.any (fun p => p.1 = idOf item) = true
  · rw [if_pos hany]
    exact find_map_replace _ _ _ hany
  · rw [if_neg hany, if_neg h]
    show (obj.own ++ [(idOf item, item)]).find? (fun p => p.1 = idOf item) = _
    rw [find_append_of_not_any _ _ _ (Bool.eq_false_iff.mpr hany)]
    rw [List.find?_cons_of_pos _ (by simp)]

/-- A set never disturbs the own entry under a different key. -/
theorem ownFind_set_other {T : Type} (idOf : T → String) (obj : JsObject T) (item : T)
    (k : String) (hk : k ≠ idOf item) :
    (dbSet idOf obj item).own.find? (fun p => p.1 = k) =
      obj.own.find? (fun p => p.1 = k) := by
  unfold dbSet
  by_cases hany : obj.own.any (fun p => p.1 = idOf item) = true
  · rw [if_pos hany]
    exact find_map_replace_other _ _ _ hk _
  · rw [if_neg hany]
    by_cases hp : idOf item = protoKey
    · rw [if_pos hp]
    · rw [if_neg hp]
      show (obj.own ++ [(idOf item, item)]).find? (fun p => p.1 = k) = _
      rw [List.find?_append]
      have hsingle : [(idOf item, item)].find? (fun p => p.1 = k) = none := by
        rw [List.find?_cons_of_neg _ (by simpa using fun hc : idOf item = k => hk hc.symm)]
        rfl
      rw [hsingle]
      cases obj.own.find? (fun p => p.1 = k) <;> rfl

/-- A set under an id other than "__proto__" leaves the prototype slot
alone. -/
theorem proto_set_other {T : Type} (idOf : T → String) (obj : JsObject T) (item : T)
    (h : idOf item ≠ protoKey) :
    (dbSet idOf obj item).proto = obj.proto := by
  unfold dbSet
  by_cases hany : obj.own.any (fun p => p.1 = idOf item) = true
  · rw [if_pos hany]
  · rw [if_neg hany, if_neg h]

/-- A set whose id is "__proto__", with no own entry shadowing the
inherited accessor, only replaces the prototype slot. -/
theorem dbSet_protoKey {T : Type} (idOf : T → String) (obj : JsObject T) (item : T)
    (hp : idOf item = protoKey) (hany : obj.own.any (fun p => p.1 = idOf item) = false) :
    dbSet idOf obj item = { obj with proto := some item } := by
  unfold dbSet
  rw [if_neg (by rw [hany]; simp), if_pos hp]

/-- No set ever creates an own entry under the key "__proto__". -/
theorem ownFind_protoKey_set {T : Type} (idOf : T → String) (obj : JsObject T) (item : T)
    (h : obj.own.find? (fun p => p.1 = protoKey) = none) :
    (dbSet idOf obj item).own.find? (fun p => p.1 = protoKey) = none := by
  by_cases hid : idOf item = protoKey
  · have hany : obj.own.any (fun p => p.1 = idOf item) = false := by
      rw [hid, List.any_eq_false]
      intro p hp
      simpa using List.find?_eq_none.mp h p hp
    unfold dbSet
    rw [if_neg (by simp [hany]), if_pos hid]
    exact h
  · rw [ownFind_set_other idOf obj item protoKey (fun hc => hid hc.symm)]
    exact h

theorem ownFind_foldl_other {T : Type} (idOf : T → String) (ops : List T) (k : String)
    (h : ∀ it ∈ ops, idOf it ≠ k) :
    ∀ obj : JsObject T,
      (ops.foldl (dbSet idOf) obj).own.find? (fun p => p.1 = k) =
        obj.own.find? (fun p => p.1 = k) := by
  induction ops with
  | nil => intro obj; rfl
  | cons it rest ih =>
    intro obj
    simp only [List.foldl_cons]
    rw [ih (fun j hj => h j (List.mem_cons_of_mem _ hj))]
    exact ownFind_set_other idOf obj it k (Ne.symm (h it (List.mem_cons_self _ _)))

theorem proto_foldl_other {T : Type} (idOf : T → String) (ops : List T)
    (h : ∀ it ∈ ops, idOf it ≠ protoKey) :
    ∀ obj : JsObject T, (ops.foldl (dbSet idOf) obj).proto = obj.proto := by
  induction ops with
  | nil => intro obj; rfl
  | cons it rest ih =>
    intro obj
    simp only [List.foldl_cons]
    rw [ih (fun j hj => h j (List.mem_cons_of_mem _ hj))]
    exact proto_set_other idOf obj it (h it (List.mem_cons_self _ _))

theorem ownFind_protoKey_foldl {T : Type} (idOf : T → String) (ops : List T) :
    ∀ obj : JsObject T, obj.own.find? (fun p => p.1 = protoKey) = none →
      (ops.foldl (dbSet idOf) obj).own.find? (fun p => p.1 = protoKey) = none := by
  induction ops with
  | nil => intro obj h; exact h
  | cons it rest ih =>
    intro obj h
    simp only [List.foldl_cons]
    exact ih _ (ownFind_protoKey_set idOf obj it h)

/-- A read whose key has an own entry returns that record. -/
theorem dbGet_own_hit {T : Type} (obj : JsObject T) (k : String) (p : String × T)
    (h : obj.own.find? (fun q => q.1 = k) = some p) :
    dbGet obj k = JsValue.record p.2 := by
  unfold dbGet
  rw [h]

/-- Reading "__proto__" with no own entry under it yields the record in
the prototype slot. -/
theorem dbGet_proto_slot {T : Type} (obj : JsObject T) (t : T)
    (h1 : obj.own.find? (fun q => q.1 = protoKey) = none) (h2 : obj.proto = some t) :
    dbGet obj protoKey = JsValue.record t := by
  unfold dbGet
  rw [h1, h2, if_pos rfl]

/-- A read misses entirely (returns `undefined`) when the key has no own
entry, the prototype is still `Object.prototype`, and the key neither is
"__proto__" nor names an `Object.prototype` member. -/
theorem dbGet_undef {T : Type} (obj : JsObject T) (k : String)
    (h1 : obj.own.find? (fun q => q.1 = k) = none) (h2 : obj.proto = none)
    (h3 : k ≠ protoKey) (h4 : objectProtoMembers.contains k = false) :
    dbGet obj k = JsValue.undef := by
  unfold dbGet
  rw [h1, h2, if_neg h3,
    if_neg (fun hc : objectProtoMembers.contains k = true => by
      rw [h4] at hc
      exact Bool.noConfusion hc)]

/-- Ascending insertion (by numeric key value) used to model the ordering
of array-index keys in `Object.values` enumeration. Keys of a JS object
are unique, so stability among equal keys is irrelevant. -/
def insertIdx {T : Type} (p : String × T) : List (String × T) → List (String × T)
  | [] => [p]
  | q :: rest =>
    if (toArrayIndex p.1).getD 0 ≤ (toArrayIndex q.1).getD 0 then p :: q :: rest
    else q :: insertIdx p rest

/-- Sorts array-index entries ascending by their numeric key. -/
def sortIdx {T : Type} : List (String × T) → List (String × T)
  | [] => []
  | p :: rest => insertIdx p (sortIdx rest)

/-- `Object.values` enumeration order over the own properties: entries
whose key is an ECMAScript array index first, ascending numerically, then
the remaining entries in insertion order. -/
def objValues {T : Type} (db : List (String × T)) : List (String × T) :=
  sortIdx (db.filter (fun p => (toArrayIndex p.1).isSome)) ++
    db.filter (fun p => (toArrayIndex p.1).isNone)

/-- The record sequence `Object.values` produces from an own-property
list. -/
def values {T : Type} (db : List (String × T)) : List T :=
  (objValues db).map (fun p => p.2)

/-- `each(callback)`: the items passed to `callback`, in iteration order.
`Object.values(this.db)` enumerates own enumerable properties only, so a
record held in the prototype slot is never visited. -/
def eachVisits {T : Type} (obj : JsObject T) : List T :=
  values obj.own

/-- Every record the store holds: the own entries in iteration order,
plus the record in the prototype slot when one was installed by a set
under "__proto__". -/
def storedRecords {T : Type} (obj : JsObject T) : List T :=
  eachVisits obj ++ (match obj.proto with | some t => [t] | none => [])

/-- One step of the `getBestByScore` scan: strict excess resets the result
and raises `bestScore`; exact equality appends (`result.push(item)`). -/
def bestStep {T : Type} (f : T → Int) (acc : List T × Int) (item : T) : List T × Int :=
  if f item > acc.2 then ([item], f item)
  else if f item = acc.2 then (acc.1 ++ [item], acc.2)
  else acc

/-- `getBestByScore(scoreStrategy)`: full scan over the `each` iteration
order with `bestScore` initialized to `Number.MIN_SAFE_INTEGER`. -/
def getBestByScore {T : Type} (obj : JsObject T) (f : T → Int) : List T :=
  ((eachVisits obj).foldl (bestStep f) ([], minSafeInteger)).1

/-- The `Database` instance state: the mapping, the current scoring policy
(`bestStrategy`, a `BestStrategy` object modelled by its `evaluate`
function), and the subscriber lists of the two channels (callbacks named
by identity). -/
structure Store (T : Type) where
  db : JsObject T
  strategy : T → Int
  preSubs : List Nat
  readSubs : List Nat

/-- `new Database(strategy)`: empty mapping, the given initial policy. -/
def newDatabase {T : Type} (strategy : T → Int) : Store T :=
  { db := emptyObject, strategy := strategy, preSubs := [], readSubs := [] }

/-- `setBestStrategy(strategy)`: replaces the current policy. -/
def setBestStrategy {T : Type} (st : Store T) (strategy : T → Int) : Store T :=
  { st with strategy := strategy }

/-- `getBestWiki()`: the same scan as `getBestByScore`, written out
separately in the source, scoring with `this.bestStrategy.evaluate`. -/
def getBestWiki {T : Type} (st : Store T) : List T :=
  ((eachVisits st.db).foldl
    (fun acc item =>
      if st.strategy item > acc.2 then ([item], st.strategy item)
      else if st.strategy item = acc.2 then (acc.1 ++ [item], acc.2)
      else acc)
    ([], minSafeInteger)).1

/-- Running maximum of the scores seen by the scan, seeded with `b`. -/
def maxFrom {T : Type} (f : T → Int) (b : Int) (l : List T) : Int :=
  l.foldl (fun m r => max m (f r)) b

theorem le_maxFrom {T : Type} (f : T → Int) : ∀ (l : List T) (b : Int), b ≤ maxFrom f b l := by
  intro l
  induction l with
  | nil => intro b; exact le_refl b
  | cons x xs ih =>
    intro b
    exact le_trans (le_max_left b (f x)) (ih (max b (f x)))

theorem mem_le_maxFrom {T : Type} (f : T → Int) :
    ∀ (l : List T) (b : Int) (r : T), r ∈ l → f r ≤ maxFrom f b l := by
  intro l
  induction l with
  | nil => intro b r hr; cases hr
  | cons x xs ih =>
    intro b r hr
    rcases List.mem_cons.mp hr with h | h
    · subst h
      exact le_trans (le_max_right b (f r)) (le_maxFrom f xs (max b (f r)))
    · exact ih (max b (f x)) r h

theorem maxFrom_le {T : Type} (f : T → Int) :
    ∀ (l : List T) (b c : Int), b ≤ c → (∀ r ∈ l, f r ≤ c) → maxFrom f b l ≤ c := by
  intro l
  induction l with
  | nil => intro b c hb _; exact hb
  | cons x xs ih =>
    intro b c hb h
    exact ih (max b (f x)) c (max_le hb (h x (List.mem_cons_self _ _)))
      (fun r hr => h r (List.mem_cons_of_mem _ hr))

theorem maxFrom_cons {T : Type} (f : T → Int) (x : T) (xs : List T) (b : Int) :
    maxFrom f b (x :: xs) = maxFrom f (max b (f x)) xs := rfl

/-- Exact characterization of the `getBestByScore` scan loop: the final
`bestScore` is the running maximum, and the final `result` keeps the
incoming accumulator only when nothing beat the seed, followed by the
scanned items whose score equals the final maximum, in scan order. -/
theorem bestStep_foldl {T : Type} (f : T → Int) :
    ∀ (l : List T) (res : List T) (b : Int),
      l.foldl (bestStep f) (res, b) =
        ((if maxFrom f b l = b then res else []) ++
          l.filter (fun r => f r = maxFrom f b l), maxFrom f b l) := by
  intro l
  induction l with
  | nil =>
    intro res b
    simp [maxFrom]
  | cons x xs ih =>
    intro res b
    rw [List.foldl_cons, maxFrom_cons]
    by_cases hgt : f x > b
    · have hmax : max b (f x) = f x := max_eq_right (le_of_lt hgt)
      have hstep : bestStep f (res, b) x = ([x], f x) := by
        unfold bestStep
        rw [if_pos hgt]
      rw [hstep, hmax, ih [x] (f x)]
      have hMb : ¬ maxFrom f (f x) xs = b := by
        intro hc
        exact absurd (hc ▸ le_maxFrom f xs (f x)) (not_le_of_gt hgt)
      rw [if_neg hMb]
      simp only [List.filter_cons, List.nil_append, decide_eq_true_eq]
      by_cases hx : f x = maxFrom f (f x) xs
      · rw [if_pos hx.symm, if_pos hx]
        rfl
      · rw [if_neg (fun hc => hx hc.symm), if_neg hx]
        rfl
    · by_cases heq : f x = b
      · have hmax : max b (f x) = b := max_eq_left (heq ▸ le_refl b)
        have hstep : bestStep f (res, b) x = (res ++ [x], b) := by
          unfold bestStep
          rw [if_neg hgt, if_pos heq]
        rw [hstep, hmax, ih (res ++ [x]) b]
        simp only [List.filter_cons, decide_eq_true_eq]
        by_cases hMb : maxFrom f b xs = b
        · rw [if_pos hMb, if_pos hMb, if_pos (heq.trans hMb.symm)]
          simp
        · rw [if_neg hMb, if_neg hMb,
            if_neg (fun hc : f x = maxFrom f b xs => hMb (heq ▸ hc).symm)]
      · have hlt : f x < b := lt_of_le_of_ne (not_lt.mp hgt) heq
        have hmax : max b (f x) = b := max_eq_left (le_of_lt hlt)
        have hstep : bestStep f (res, b) x = (res, b) := by
          unfold bestStep
          rw [if_neg hgt, if_neg heq]
        have hne : ¬ f x = maxFrom f b xs := fun hc =>
          not_le_of_gt hlt ((le_maxFrom f xs b).trans (le_of_eq hc.symm))
        rw [hstep, hmax, ih res b]
        simp only [List.filter_cons, decide_eq_true_eq]
        rw [if_neg hne]

/-- The scan result is exactly the scanned items scoring the running
maximum (seeded with the sentinel), in iteration order. -/
theorem getBestByScore_eq_filter {T : Type} (obj : JsObject T) (f : T → Int) :
    getBestByScore obj f =
      (eachVisits obj).filter
        (fun r => f r = maxFrom f minSafeInteger (eachVisits obj)) := by
  unfold getBestByScore
  rw [bestStep_foldl f (eachVisits obj) [] minSafeInteger]
  simp

/-- The duplicated `getBestWiki` loop is the `getBestByScore` loop applied
to the current policy. -/
theorem getBestWiki_eq {T : Type} (st : Store T) :
    getBestWiki st = getBestByScore st.db st.strategy := rfl

/-- When no key of an own-property list is an array index, `Object.values`
enumerates the entries in insertion order. -/
theorem values_of_no_index {T : Type} (db : List (String × T))
    (h : ∀ p ∈ db, toArrayIndex p.1 = none) :
    values db = db.map (fun p => p.2) := by
  unfold values objValues
  have h1 : db.filter (fun p => (toArrayIndex p.1).isSome) = [] := by
    rw [List.filter_eq_nil_iff]
    intro p hp
    simp [h p hp]
  have h2 : db.filter (fun p => (toArrayIndex p.1).isNone) = db := by
    rw [List.filter_eq_self]
    intro p hp
    simp [h p hp]
  rw [h1, h2]
  rfl

/-- An effect a callback can perform on its subject while being notified:
`reg o` is `registerObserver` of the callback named `o`
(`observers.push(observer)` on the array the `observers` variable
currently holds), `unsub o` invokes the unsubscribe handle returned for
`o` (`observers = observers.filter((x) => x !== observer)`, rebinding the
variable to a fresh array). Callbacks are named by identity. -/
inductive SubAction where
  | reg : Nat → SubAction
  | unsub : Nat → SubAction
deriving DecidableEq

/-- The effect of the unsubscribe handle on a subscriber list: keep every
callback other than `o` (comparison is by identity). -/
def unsubObs (o : Nat) (l : List Nat) : List Nat :=
  l.filter (fun x => x ≠ o)

/-- State of a `createSubject` instance while a `notifyObservers` pass is
running: `loopArr` is the contents of the array object captured by the
`for...of` loop, `varArr` is the contents of the array the `observers`
variable currently references, and `aliased` records whether they are
still the same object (an unsubscribe rebinds `observers` to a fresh
array, after which pushes no longer reach the array held by the loop). -/
structure SubjectState where
  loopArr : List Nat
  varArr : List Nat
  aliased : Bool
deriving DecidableEq

def applySubAction (st : SubjectState) : SubAction → SubjectState
  | SubAction.reg o =>
    { loopArr := if st.aliased then st.loopArr ++ [o] else st.loopArr,
      varArr := st.varArr ++ [o],
      aliased := st.aliased }
  | SubAction.unsub o =>
    { loopArr := st.loopArr, varArr := unsubObs o st.varArr, aliased := false }

/-- What each callback does when invoked, as a finite table from callback
identity to the subject operations it performs; callbacks absent from the
table do nothing. -/
abbrev Behavior : Type := List (Nat × List SubAction)

def behActs (beh : Behavior) (o : Nat) : List SubAction :=
  match beh.find? (fun p => p.1 = o) with
  | some p => p.2
  | none => []

/-- The `for (const observer of observers) observer(ev)` loop of
`notifyObservers`: the iterator walks `loopArr` by index, re-checking the
current length of the captured array each step (a push onto the aliased array
is therefore picked up by the running pass). `fuel` bounds the number of
iterations modelled; `none` means the pass was still running when fuel ran
out. Returns the final subject state and the callbacks invoked, in
invocation order. -/
def notifyRun (beh : Behavior) : Nat → Nat → SubjectState → List Nat →
    Option (SubjectState × List Nat)
  | 0, i, st, inv => if i < st.loopArr.length then none else some (st, inv)
  | fuel + 1, i, st, inv =>
    if h : i < st.loopArr.length then
      notifyRun beh fuel (i + 1)
        ((behActs beh (st.loopArr.get ⟨i, h⟩)).foldl applySubAction st)
        (inv ++ [st.loopArr.get ⟨i, h⟩])
    else some (st, inv)

/-- `notifyObservers(ev)` started on subscriber list `observers`: the loop
captures the current array, which the variable still references. -/
def notify (beh : Behavior) (fuel : Nat) (observers : List Nat) :
    Option (SubjectState × List Nat) :=
  notifyRun beh fuel 0 { loopArr := observers, varArr := observers, aliased := true } []

/-- `true` when the action is not a registration. -/
def noReg : SubAction → Bool
  | SubAction.reg _ => false
  | SubAction.unsub _ => true

/-- `true` when no callback in the table registers a new callback. -/
def behNoReg (beh : Behavior) : Bool :=
  beh.all (fun p => p.2.all noReg)

theorem behActs_noReg (beh : Behavior) (hb : behNoReg beh = true) (o : Nat) :
    (behActs beh o).all noReg = true := by
  unfold behActs
  cases hfind : beh.find? (fun p => p.1 = o) with
  | none => rfl
  | some p =>
    have hmem : p ∈ beh := List.mem_of_find?_eq_some hfind
    exact (List.all_eq_true.mp hb) p hmem

theorem applySubAction_loopArr (st : SubjectState) (a : SubAction) (h : noReg a = true) :
    (applySubAction st a).loopArr = st.loopArr := by
  cases a with
  | reg o => simp [noReg] at h
  | unsub o => rfl

theorem foldl_applySubAction_loopArr (acts : List SubAction) :
    ∀ st : SubjectState, acts.all noReg = true →
      (acts.foldl applySubAction st).loopArr = st.loopArr := by
  induction acts with
  | nil => intro st _; rfl
  | cons a rest ih =>
    intro st h
    simp only [List.all_cons, Bool.and_eq_true] at h
    rw [List.foldl_cons, ih (applySubAction st a) h.2, applySubAction_loopArr st a h.1]

theorem get_cons_drop {α : Type} : ∀ (l : List α) (i : Nat) (h : i < l.length),
    l.get ⟨i, h⟩ :: l.drop (i + 1) = l.drop i := by
  intro l
  induction l with
  | nil => intro i h; cases h
  | cons x xs ih =>
    intro i h
    cases i with
    | zero => rfl
    | succ j => exact ih j (Nat.lt_of_succ_lt_succ h)

/-- When no callback registers during the pass, the array held by the loop never
grows, the pass terminates within `loopArr.length` steps, and it invokes
exactly the callbacks from position `i` on, in order. -/
theorem notifyRun_noReg (beh : Behavior) (hb : behNoReg beh = true) :
    ∀ (fuel i : Nat) (st : SubjectState) (inv : List Nat),
      fuel + i = st.loopArr.length →
      (notifyRun beh fuel i st inv).map (fun r => r.2) =
        some (inv ++ st.loopArr.drop i) := by
  intro fuel
  induction fuel with
  | zero =>
    intro i st inv hfi
    have hge : ¬ i < st.loopArr.length := by omega
    unfold notifyRun
    rw [if_neg hge]
    rw [List.drop_eq_nil_of_le (by omega)]
    simp
  | succ f ih =>
    intro i st inv hfi
    have hlt : i < st.loopArr.length := by omega
    unfold notifyRun
    rw [dif_pos hlt]
    have hacts := behActs_noReg beh hb (st.loopArr.get ⟨i, hlt⟩)
    have hloop :
        ((behActs beh (st.loopArr.get ⟨i, hlt⟩)).foldl applySubAction st).loopArr =
          st.loopArr :=
      foldl_applySubAction_loopArr _ st hacts
    rw [ih (i + 1) _ _ (by rw [hloop]; omega)]
    rw [hloop, List.append_assoc, List.singleton_append, get_cons_drop st.loopArr i hlt]

/-- The Pre-write Event `{ existingItem, item }` published by `set` before
the mapping is touched. At runtime `existingItem` holds whatever the read
`this.db[item.id]` produced, so inherited values can appear here. -/
structure PreEvent (T : Type) where
  existingItem : JsValue T
  item : T
deriving DecidableEq

/-- A pre-write subscriber: receives the event and can read the store as
it stands when the callback runs; it may throw (`Except.error`). Error
codes are opaque. -/
def PreSub (T : Type) : Type := PreEvent T → JsObject T → Except Nat Unit

/-- Synchronous delivery of one published event to the subscriber list, in
subscription order; an exception aborts the loop and propagates. Also
returns the trace of deliveries, each recording the event passed and the
store contents the callback could read at that moment. -/
def runPreSubs {T : Type} : List (PreSub T) → PreEvent T → JsObject T →
    Except Nat Unit × List (PreEvent T × JsObject T)
  | [], _, _ => (Except.ok (), [])
  | s :: rest, ev, db =>
    match s ev db with
    | Except.error e => (Except.error e, [(ev, db)])
    | Except.ok _ =>
      let r := runPreSubs rest ev db
      (r.1, (ev, db) :: r.2)

deriving instance DecidableEq for Except

/-- Everything observable about one `set(item)` call: the mapping
afterwards, the Pre-write Events published (one per
`notifyObservers` call in the source body), the deliveries made, and
whether the call returned normally or propagated an error thrown by a subscriber. -/
structure SetOut (T : Type) where
  db : JsObject T
  published : List (PreEvent T)
  delivered : List (PreEvent T × JsObject T)
  result : Except Nat Unit
deriving DecidableEq

/-- `set(item)`: builds the event from the mapping as it stands
(`existingItem: this.db[item.id]`), publishes it on the pre-write
channel, then — only if no subscriber threw — commits
`this.db[item.id] = item`. -/
def setWithSubs {T : Type} (idOf : T → String) (subs : List (PreSub T))
    (db : JsObject T) (item : T) : SetOut T :=
  match runPreSubs subs { existingItem := dbGet db (idOf item), item := item } db with
  | (Except.error e, tr) =>
    { db := db,
      published := [{ existingItem := dbGet db (idOf item), item := item }],
      delivered := tr, result := Except.error e }
  | (Except.ok _, tr) =>
    { db := dbSet idOf db item,
      published := [{ existingItem := dbGet db (idOf item), item := item }],
      delivered := tr, result := Except.ok () }

theorem runPreSubs_delivered {T : Type} :
    ∀ (subs : List (PreSub T)) (ev : PreEvent T) (db : JsObject T)
      (q : PreEvent T × JsObject T),
      q ∈ (runPreSubs subs ev db).2 → q = (ev, db) := by
  intro subs
  induction subs with
  | nil => intro ev db q hq; cases hq
  | cons s rest ih =>
    intro ev db q hq
    unfold runPreSubs at hq
    cases hres : s ev db with
    | error e =>
      rw [hres] at hq
      simpa using hq
    | ok u =>
      rw [hres] at hq
      simp only [List.mem_cons] at hq
      rcases hq with h | h
      · exact h
      · exact ih ev db q h

/-- A sample record shape (id plus one stat), used to evaluate the
embedding at concrete inputs. -/
structure Creature where
  id : String
  attack : Int
deriving DecidableEq

/-- Everything observable about one query operation on a `Database`
instance: the instance state afterwards and the events published on each
channel, plus the returned value. The score functions and visitors
supplied to these operations are modelled as pure (they do not re-enter
the store), matching the proviso stated in the claims. -/
structure OpOut (T R : Type) where
  store : Store T
  preEvents : List (PreEvent T)
  readEvents : List OnReadEvent
  ret : R

/-- `get(key)` on an instance: one Read Event, value from the mapping. -/
def getSt {T : Type} (st : Store T) (k : String) : OpOut T (JsValue T) :=
  { store := st, preEvents := [], readEvents := [{ id := k }], ret := dbGet st.db k }

/-- `each(callback)` on an instance: visits in iteration order, no events. -/
def eachSt {T : Type} (st : Store T) : OpOut T (List T) :=
  { store := st, preEvents := [], readEvents := [], ret := eachVisits st.db }

/-- `getBestByScore(scoreStrategy)` on an instance. -/
def getBestByScoreSt {T : Type} (st : Store T) (f : T → Int) : OpOut T (List T) :=
  { store := st, preEvents := [], readEvents := [], ret := getBestByScore st.db f }

/-- `getBestWiki()` on an instance. -/
def getBestWikiSt {T : Type} (st : Store T) : OpOut T (List T) :=
  { store := st, preEvents := [], readEvents := [], ret := getBestWiki st }

theorem getOp_fst {T : Type} (obj : JsObject T) (k : String) :
    (getOp obj k).1 = dbGet obj k := rfl

/-- Claim C1 (amended): in a publish pass during which no callback
registers a new callback, the callbacks invoked are exactly those
subscribed at the moment publish begins, once each in subscription
order — in particular, unsubscribing a callback during the pass never
changes the pass in progress. A callback that registers a new callback
during the pass, however, extends the pass in progress with the new
subscriber (unless an earlier unsubscription in the pass has already
rebound the live list), as the counterexample shows. -/
theorem notify_snapshot_no_reg (beh : Behavior) (observers : List Nat)
    (h : behNoReg beh = true) :
    (notify beh observers.length observers).map (fun r => r.2) = some observers := by
  unfold notify
  rw [notifyRun_noReg beh h observers.length 0 _ [] (by simp)]
  simp

def behSnapshotW : Behavior := [(0, [SubAction.unsub 2])]

/-- Witness for C1: three subscribers; the first unsubscribes the third
during the pass, yet the pass still invokes all three in order. -/
theorem notify_snapshot_no_reg_witness :
    behNoReg behSnapshotW = true ∧
      (notify behSnapshotW ([0, 1, 2] : List Nat).length [0, 1, 2]).map (fun r => r.2) =
        some [0, 1, 2] :=
  ⟨by decide, notify_snapshot_no_reg behSnapshotW [0, 1, 2] (by decide)⟩

def behSnapshotCex : Behavior := [(0, [SubAction.reg 1])]

/-- Counterexample to C1 as stated: callback `0` is the only subscriber
when publish begins and registers callback `1` during the pass; the pass
in progress then invokes `1` as well, so the invoked sequence `[0, 1]` is
not the snapshot `[0]`. -/
theorem notify_snapshot_cex :
    (notify behSnapshotCex 2 [0]).map (fun r => r.2) = some [0, 1] ∧
      ([0, 1] : List Nat) ≠ [0] := by
  decide

/-- Claim C9: the unsubscribe handle returned for callback `o` removes
exactly that callback (compared by identity) from the list used by future
passes: `o` is gone, every other callback keeps its multiplicity, the
relative order of the survivors is unchanged (the new list is a sublist
of the old), and invoking the handle again has no further effect. -/
theorem unsubscribe_exact_idempotent (l : List Nat) (o x : Nat) (hx : x ≠ o) :
    o ∉ unsubObs o l ∧ (unsubObs o l).count x = l.count x ∧
      (unsubObs o l).Sublist l ∧ unsubObs o (unsubObs o l) = unsubObs o l := by
  refine ⟨?_, ?_, ?_, ?_⟩
  · intro hmem
    have h := List.of_mem_filter hmem
    simp at h
  · unfold unsubObs
    rw [List.count_filter]
    simp [hx]
  · exact List.filter_sublist _
  · unfold unsubObs
    rw [List.filter_eq_self]
    intro a ha
    exact (List.mem_filter.mp ha).2

/-- Witness for C9 at a concrete subscriber list. -/
theorem unsubscribe_exact_idempotent_witness :
    (2 : Nat) ≠ 1 ∧
      (1 ∉ unsubObs 1 [0, 1, 2] ∧
        (unsubObs 1 [0, 1, 2]).count 2 = ([0, 1, 2] : List Nat).count 2 ∧
        (unsubObs 1 [0, 1, 2]).Sublist [0, 1, 2] ∧
        unsubObs 1 (unsubObs 1 [0, 1, 2]) = unsubObs 1 [0, 1, 2]) :=
  ⟨by decide, unsubscribe_exact_idempotent [0, 1, 2] 1 2 (by decide)⟩

/-- Claim C3: last-write-wins. For any sequence of `set` calls in which
`item` is the last one whose record carries `idOf item`, a subsequent
`get` of that id returns exactly `item`, regardless of interleaved sets
under other ids. This covers every caller-assigned string id: under
"__proto__" the record lands in the prototype slot and the inherited
getter reads it back; under an `Object.prototype` member name the
assignment shadows the inherited member. -/
theorem last_write_wins {T : Type} (idOf : T → String) (pre post : List T) (item : T)
    (h : ∀ j ∈ post, idOf j ≠ idOf item) :
    (getOp (applyAll idOf (pre ++ item :: post)) (idOf item)).1 = JsValue.record item := by
  rw [getOp_fst]
  unfold applyAll
  rw [List.foldl_append, List.foldl_cons]
  by_cases hp : idOf item = protoKey
  · have hnone1 : (List.foldl (dbSet idOf) emptyObject pre).own.find?
        (fun p => p.1 = protoKey) = none :=
      ownFind_protoKey_foldl idOf pre emptyObject rfl
    have hany1 : (List.foldl (dbSet idOf) emptyObject pre).own.any
        (fun p => p.1 = idOf item) = false := by
      rw [List.any_eq_false]
      intro p hp2
      have h5 := List.find?_eq_none.mp hnone1 p hp2
      simp only [decide_eq_true_eq] at h5 ⊢
      rw [hp]
      exact h5
    have hset : dbSet idOf (List.foldl (dbSet idOf) emptyObject pre) item =
        { List.foldl (dbSet idOf) emptyObject pre with proto := some item } :=
      dbSet_protoKey idOf _ item hp hany1
    rw [hset, hp]
    have hpost : ∀ j ∈ post, idOf j ≠ protoKey := by
      intro j hj
      rw [← hp]
      exact h j hj
    apply dbGet_proto_slot
    · apply ownFind_protoKey_foldl
      exact hnone1
    · rw [proto_foldl_other idOf post hpost]
  · have h1 : (dbSet idOf (List.foldl (dbSet idOf) emptyObject pre) item).own.find?
        (fun p => p.1 = idOf item) = some (idOf item, item) :=
      ownFind_set_self idOf _ item hp
    exact dbGet_own_hit _ _ (idOf item, item)
      (by rw [ownFind_foldl_other idOf post (idOf item) h]; exact h1)

def recA1 : Creature := { id := "a", attack := 10 }
def recA2 : Creature := { id := "a", attack := 90 }
def recB : Creature := { id := "b", attack := 1 }

/-- `true` when no record in the list carries the id `k`. -/
def noneHasId (l : List Creature) (k : String) : Bool :=
  l.all (fun j => j.id ≠ k)

/-- Witness for C3: set a twice, then b; get a returns the second a. -/
theorem last_write_wins_witness :
    noneHasId [recB] (Creature.id recA2) = true ∧
      (getOp (applyAll Creature.id ([recA1] ++ recA2 :: [recB])) (Creature.id recA2)).1 =
        JsValue.record recA2 :=
  ⟨by decide, last_write_wins Creature.id [recA1] [recB] recA2 (by decide)⟩

def memberKey : String := "toString"

/-- Counterexample to C6 as stated: on a fresh store, `get` of the
never-set key "toString" returns the inherited
`Object.prototype.toString` function instead of the not-found signal —
the read event still fires, but the miss is not `undefined`. -/
theorem get_inherited_cex :
    (getOp (emptyObject : JsObject Creature) memberKey).1 = JsValue.builtin memberKey ∧
      JsValue.builtin memberKey ≠ (JsValue.undef : JsValue Creature) ∧
      (getOp (emptyObject : JsObject Creature) memberKey).2 = [{ id := memberKey }] := by
  decide

/-- Claim C6 (amended): `get` on a key never set returns `undefined`
without throwing, provided the key neither names an `Object.prototype`
member ("toString", "constructor", ...) nor is "__proto__", and no set
ever used the id "__proto__" (otherwise the read walks the prototype
chain and returns an inherited value — see the counterexample); every
`get` — hit or miss — still publishes exactly one Read Event carrying
that key. -/
theorem get_miss_event_amended {T : Type} (idOf : T → String) (ops : List T)
    (db : JsObject T) (k : String) :
    ((∀ it ∈ ops, idOf it ≠ k) → (∀ it ∈ ops, idOf it ≠ protoKey) →
        k ≠ protoKey → objectProtoMembers.contains k = false →
        (getOp (applyAll idOf ops) k).1 = JsValue.undef) ∧
      (getOp db k).2 = [{ id := k }] := by
  constructor
  · intro h1 h2 h3 h4
    rw [getOp_fst]
    unfold applyAll
    apply dbGet_undef
    · rw [ownFind_foldl_other idOf ops k h1]
      rfl
    · rw [proto_foldl_other idOf ops h2]
      rfl
    · exact h3
    · exact h4
  · rfl

/-- Witness for C6: a store holding only b, read at the plain id a. -/
theorem get_miss_event_amended_witness :
    noneHasId [recB] (Creature.id recA1) = true ∧
      noneHasId [recB] protoKey = true ∧
      Creature.id recA1 ≠ protoKey ∧
      objectProtoMembers.contains (Creature.id recA1) = false ∧
      ((getOp (applyAll Creature.id [recB]) (Creature.id recA1)).1 = JsValue.undef ∧
        (getOp (applyAll Creature.id [recB]) (Creature.id recA1)).2 =
          [{ id := Creature.id recA1 }]) :=
  ⟨by decide, by decide, by decide, by decide,
    ⟨(get_miss_event_amended Creature.id [recB] (applyAll Creature.id [recB])
        (Creature.id recA1)).1 (by decide) (by decide) (by decide) (by decide),
      (get_miss_event_amended Creature.id [recB] (applyAll Creature.id [recB])
        (Creature.id recA1)).2⟩⟩

/-- Claim C5: `getBestWiki()` computes exactly `getBestByScore` under the
current policy of the store; `setBestStrategy` replaces the policy without
touching the mapping, so a `getBestWiki` call after the swap reflects the
new policy on the same records while a call before it reflected the old
one. -/
theorem getBestWiki_refines {T : Type} (st : Store T) (p : T → Int) :
    getBestWiki st = getBestByScore st.db st.strategy ∧
      (setBestStrategy st p).strategy = p ∧
      (setBestStrategy st p).db = st.db ∧
      getBestWiki (setBestStrategy st p) = getBestByScore st.db p :=
  ⟨rfl, rfl, rfl, rfl⟩

/-- Claim C10: the query operations `get`, `each`, `getBestByScore` and
`getBestWiki` leave the instance state — mapping, current policy, both
subscriber lists — unchanged, and the two best-record scans publish no
event on either channel (`each` publishes none either; `get` publishes
only its Read Event). Score functions and visitors are modelled as pure,
per the non-reentrancy proviso of the claim. -/
theorem query_frame {T : Type} (st : Store T) (k : String) (f : T → Int) :
    (getSt st k).store = st ∧ (eachSt st).store = st ∧
      (getBestByScoreSt st f).store = st ∧ (getBestWikiSt st).store = st ∧
      (getBestByScoreSt st f).preEvents = [] ∧
      (getBestByScoreSt st f).readEvents = [] ∧
      (getBestWikiSt st).preEvents = [] ∧ (getBestWikiSt st).readEvents = [] ∧
      (eachSt st).preEvents = [] ∧ (eachSt st).readEvents = [] ∧
      (getSt st k).preEvents = [] :=
  ⟨rfl, rfl, rfl, rfl, rfl, rfl, rfl, rfl, rfl, rfl, rfl⟩

def ctorKey : String := "constructor"

def ctorRec : Creature := { id := "constructor", attack := 3 }

/-- Counterexample to C2 as stated: on a fresh store with nothing ever
set, `set` of a record with id "constructor" publishes a Pre-write Event
whose `existingItem` is the inherited `Object.prototype.constructor` —
neither a previously stored record nor the absent signal. -/
theorem set_prewrite_cex :
    (emptyObject : JsObject Creature).own = [] ∧
      (setWithSubs Creature.id [] (emptyObject : JsObject Creature) ctorRec).published =
        [{ existingItem := JsValue.builtin ctorKey, item := ctorRec }] ∧
      JsValue.builtin ctorKey ≠ (JsValue.undef : JsValue Creature) := by
  decide

/-- Claim C2 (amended): `set(item)` publishes exactly one Pre-write Event,
carrying the value `this.db[item.id]` read before the write together with
the incoming record; that value is the existing record whenever the id
has an own entry, and the absent signal (`undefined`) whenever it has
none, the prototype slot is empty, and the id neither names an
`Object.prototype` member nor is "__proto__" (otherwise the inherited
member or the prototype leaks into the event — see the counterexample).
Every subscriber is invoked with that event while the mapping still holds
its pre-write contents; on normal return the mapping holds the new
record, and an exception thrown by a subscriber propagates to the caller
of `set`, leaving the mapping unmutated. -/
theorem set_prewrite_order_amended {T : Type} (idOf : T → String) (subs : List (PreSub T))
    (db : JsObject T) (item : T)
    (q : PreEvent T × JsObject T) (e : Nat) (p2 : String × T) :
    (setWithSubs idOf subs db item).published =
        [{ existingItem := dbGet db (idOf item), item := item }] ∧
      (q ∈ (setWithSubs idOf subs db item).delivered →
        q.1 = { existingItem := dbGet db (idOf item), item := item } ∧ q.2 = db) ∧
      ((setWithSubs idOf subs db item).result = Except.ok () →
        (setWithSubs idOf subs db item).db = dbSet idOf db item) ∧
      ((setWithSubs idOf subs db item).result = Except.error e →
        (setWithSubs idOf subs db item).db = db) ∧
      (db.own.find? (fun p => p.1 = idOf item) = some p2 →
        dbGet db (idOf item) = JsValue.record p2.2) ∧
      (db.own.find? (fun p => p.1 = idOf item) = none → db.proto = none →
        idOf item ≠ protoKey → objectProtoMembers.contains (idOf item) = false →
        dbGet db (idOf item) = JsValue.undef) := by
  have hhit : db.own.find? (fun p => p.1 = idOf item) = some p2 →
      dbGet db (idOf item) = JsValue.record p2.2 :=
    fun hf => dbGet_own_hit db _ p2 hf
  have hundef : db.own.find? (fun p => p.1 = idOf item) = none → db.proto = none →
      idOf item ≠ protoKey → objectProtoMembers.contains (idOf item) = false →
      dbGet db (idOf item) = JsValue.undef :=
    fun h1 h2 h3 h4 => dbGet_undef db _ h1 h2 h3 h4
  unfold setWithSubs
  cases hrun : runPreSubs subs { existingItem := dbGet db (idOf item), item := item } db with
  | mk r1 tr =>
    have hdel : ∀ q2 ∈ tr, q2 = ({ existingItem := dbGet db (idOf item), item := item }, db) := by
      intro q2 hq2
      exact runPreSubs_delivered subs _ db q2 (by rw [hrun]; exact hq2)
    cases r1 with
    | error e2 =>
      refine ⟨rfl, ?_, ?_, ?_, hhit, hundef⟩
      · intro hq
        have hq2 := hdel q hq
        constructor
        · rw [hq2]
        · rw [hq2]
      · intro hok
        exact Except.noConfusion hok
      · intro _
        rfl
    | ok u =>
      refine ⟨rfl, ?_, ?_, ?_, hhit, hundef⟩
      · intro hq
        have hq2 := hdel q hq
        constructor
        · rw [hq2]
        · rw [hq2]
      · intro _
        rfl
      · intro herr
        exact Except.noConfusion herr

def dbA : JsObject Creature := applyAll Creature.id [recA1]

def evA : PreEvent Creature := { existingItem := JsValue.record recA1, item := recA2 }

/-- A pre-write subscriber that always throws (error code 7). -/
def subBoom : PreSub Creature := fun _ _ => Except.error 7

/-- Witness for C2: a throwing subscriber sees the event with the old
record and the pre-write mapping, the error propagates out of `set`, the
mapping is unchanged; on a fresh store a plain never-set id reads as the
absent signal. -/
theorem set_prewrite_order_amended_witness :
    (setWithSubs Creature.id [subBoom] dbA recA2).published = [evA] ∧
      ((evA, dbA) ∈ (setWithSubs Creature.id [subBoom] dbA recA2).delivered ∧
        (evA, dbA).1 = evA ∧ (evA, dbA).2 = dbA) ∧
      ((setWithSubs Creature.id [subBoom] dbA recA2).result = Except.error 7 ∧
        (setWithSubs Creature.id [subBoom] dbA recA2).db = dbA) ∧
      (dbA.own.find? (fun p => p.1 = Creature.id recA2) = some (Creature.id recA1, recA1) ∧
        dbGet dbA (Creature.id recA2) = JsValue.record recA1) ∧
      ((emptyObject : JsObject Creature).own.find? (fun p => p.1 = Creature.id recA1) = none ∧
        dbGet (emptyObject : JsObject Creature) (Creature.id recA1) = JsValue.undef) :=
  ⟨(set_prewrite_order_amended Creature.id [subBoom] dbA recA2 (evA, dbA) 7
      (Creature.id recA1, recA1)).1,
    ⟨by decide,
      (set_prewrite_order_amended Creature.id [subBoom] dbA recA2 (evA, dbA) 7
        (Creature.id recA1, recA1)).2.1 (by decide)⟩,
    ⟨by decide,
      (set_prewrite_order_amended Creature.id [subBoom] dbA recA2 (evA, dbA) 7
        (Creature.id recA1, recA1)).2.2.2.1 (by decide)⟩,
    ⟨by decide,
      (set_prewrite_order_amended Creature.id [subBoom] dbA recA2 (evA, dbA) 7
        (Creature.id recA1, recA1)).2.2.2.2.1 (by decide)⟩,
    ⟨by decide,
      (set_prewrite_order_amended Creature.id [] (emptyObject : JsObject Creature) recA1
        (evA, dbA) 7 (Creature.id recA1, recA1)).2.2.2.2.2
        (by decide) (by decide) (by decide) (by decide)⟩⟩

def loneRec : Creature := { id := "c", attack := 0 }

def dbLone : JsObject Creature := applyAll Creature.id [loneRec]

/-- A score function returning a value strictly below the sentinel
(`-(2^53 - 1) - 1` is a perfectly representable JS number). -/
def belowSentinelScore : Creature → Int := fun _ => minSafeInteger - 1

def protoRec : Creature := { id := "__proto__", attack := 100 }

def weakRec : Creature := { id := "w", attack := 1 }

def dbProtoMix : JsObject Creature := applyAll Creature.id [protoRec, weakRec]

/-- Counterexample to C4 as stated, in two parts. One stored record whose
score lies strictly below the sentinel that initializes `bestScore`: the
maximum is attained by that record, yet the scan takes neither branch and
returns the empty list. And a record set under the plain id "__proto__"
(readable back through `get`) scoring 100 next to an own record scoring
1: the scan never enumerates the prototype slot and returns the score-1
record instead of the maximal one. -/
theorem getBestByScore_max_cex :
    eachVisits dbLone = [loneRec] ∧
      getBestByScore dbLone belowSentinelScore = [] ∧
      ([] : List Creature) ≠ [loneRec] ∧
      dbGet dbProtoMix protoKey = JsValue.record protoRec ∧
      storedRecords dbProtoMix = [weakRec, protoRec] ∧
      getBestByScore dbProtoMix (fun c => c.attack) = [weakRec] ∧
      weakRec ≠ protoRec := by
  decide

/-- Claim C4 (amended): provided no stored id is an array-index-like
string, every stored record scores at least the sentinel
`Number.MIN_SAFE_INTEGER`, and the prototype slot is empty (no set ever
used the id "__proto__"), `getBestByScore` returns exactly the stored
records whose score equals the maximum score over all stored records,
preserving insertion order among ties; the empty store yields the empty
list. (The provisos are forced: scores below the sentinel are never
selected, and a record set under "__proto__" is never enumerated and so
never selected — see the two-part counterexample; array-index-like ids
change the iteration order — see C8.) -/
theorem getBestByScore_max_amended {T : Type} (obj : JsObject T) (f : T → Int)
    (hkeys : ∀ p ∈ obj.own, toArrayIndex p.1 = none)
    (hscores : ∀ r ∈ storedRecords obj, minSafeInteger ≤ f r)
    (hproto : obj.proto = none) :
    getBestByScore obj f =
        (storedRecords obj).filter
          (fun r => (storedRecords obj).all (fun r2 => f r2 ≤ f r)) ∧
      getBestByScore (emptyObject : JsObject T) f = [] := by
  have hs : storedRecords obj = obj.own.map (fun p => p.2) := by
    unfold storedRecords
    rw [hproto]
    show eachVisits obj ++ [] = _
    rw [List.append_nil]
    exact values_of_no_index obj.own hkeys
  rw [hs] at hscores
  constructor
  · have hv : eachVisits obj = obj.own.map (fun p => p.2) :=
      values_of_no_index obj.own hkeys
    rw [getBestByScore_eq_filter, hv, hs]
    apply List.filter_congr
    intro r hr
    by_cases hm : f r = maxFrom f minSafeInteger (obj.own.map (fun p => p.2))
    · rw [decide_eq_true hm]
      have hall : ∀ r2 ∈ obj.own.map (fun p => p.2), f r2 ≤ f r := by
        intro r2 hr2
        rw [hm]
        exact mem_le_maxFrom f _ minSafeInteger r2 hr2
      exact (List.all_eq_true.mpr (fun r2 hr2 => decide_eq_true (hall r2 hr2))).symm
    · rw [decide_eq_false hm]
      have hnall : ¬ (obj.own.map (fun p => p.2)).all (fun r2 => f r2 ≤ f r) = true := by
        intro hall
        apply hm
        have hub : ∀ r2 ∈ obj.own.map (fun p => p.2), f r2 ≤ f r := by
          intro r2 hr2
          exact of_decide_eq_true ((List.all_eq_true.mp hall) r2 hr2)
        have h1 : f r ≤ maxFrom f minSafeInteger (obj.own.map (fun p => p.2)) :=
          mem_le_maxFrom f _ minSafeInteger r hr
        have h2 : maxFrom f minSafeInteger (obj.own.map (fun p => p.2)) ≤ f r :=
          maxFrom_le f _ minSafeInteger (f r) (hscores r hr) hub
        exact le_antisymm h1 h2
      exact (Bool.eq_false_iff.mpr hnall).symm
  · rfl

/-- `true` when every own id is a plain, non array-index string. -/
def allKeysPlain (obj : JsObject Creature) : Bool :=
  obj.own.all (fun p => (toArrayIndex p.1).isNone)

/-- `true` when every stored record scores at least the sentinel. -/
def allScoresSafe (obj : JsObject Creature) (f : Creature → Int) : Bool :=
  (storedRecords obj).all (fun r => minSafeInteger ≤ f r)

/-- The demo policy `BestAttack.evaluate`: the attack stat of a creature. -/
def attackScore : Creature → Int := fun c => c.attack

def recTie : Creature := { id := "d", attack := 90 }

def dbTie : JsObject Creature := applyAll Creature.id [recA1, recA2, recB, recTie]

/-- Witness for C4: records a (set twice, landing attack 90), b (attack 1)
and d (attack 90): the two records tied at the maximum come back in
insertion order. -/
theorem getBestByScore_max_amended_witness :
    allKeysPlain dbTie = true ∧ allScoresSafe dbTie attackScore = true ∧
      dbTie.proto = none ∧
      (getBestByScore dbTie attackScore =
          (storedRecords dbTie).filter
            (fun r => (storedRecords dbTie).all (fun r2 => attackScore r2 ≤ attackScore r)) ∧
        getBestByScore (emptyObject : JsObject Creature) attackScore = []) ∧
      getBestByScore dbTie attackScore = [recA2, recTie] :=
  ⟨by decide, by decide, by decide,
    getBestByScore_max_amended dbTie attackScore (by decide) (by decide) (by decide),
    by decide⟩

def sentinelRec : Creature := { id := "s", attack := minSafeInteger }

def dbSentinelOnly : JsObject Creature := applyAll Creature.id [sentinelRec]

def storeSentinelOnly : Store Creature :=
  { db := dbSentinelOnly, strategy := attackScore, preSubs := [], readSubs := [] }

def dbProtoSentinel : JsObject Creature := applyAll Creature.id [protoRec, sentinelRec]

def storeProtoSentinel : Store Creature :=
  { db := dbProtoSentinel, strategy := attackScore, preSubs := [], readSubs := [] }

/-- Counterexample to C7 as stated, in two parts. A store whose only
record scores exactly the sentinel `Number.MIN_SAFE_INTEGER`: the
equality branch of the scan appends it and both best queries return it —
it wins. And a store where the only record scoring above the sentinel was
set under "__proto__" (so it sits, readable, in the prototype slot): the
scan never enumerates it and the sentinel-scored record still wins. -/
theorem sentinel_wins_cex :
    attackScore sentinelRec = minSafeInteger ∧
      getBestByScore dbSentinelOnly attackScore = [sentinelRec] ∧
      getBestWiki storeSentinelOnly = [sentinelRec] ∧
      dbGet dbProtoSentinel protoKey = JsValue.record protoRec ∧
      minSafeInteger < attackScore protoRec ∧
      getBestWiki storeProtoSentinel = [sentinelRec] := by
  decide

/-- Claim C7 (amended): a record whose score is the sentinel
`Number.MIN_SAFE_INTEGER` is never returned by `getBestByScore` or
`getBestWiki`, provided some record enumerated by `each` (an own entry —
a record set under "__proto__" sits in the prototype slot and is not
enumerated, so it does not count) scores strictly above the sentinel.
(When no enumerated record does, sentinel-scored records tie with the
initial `bestScore` and are returned — see the counterexample.) -/
theorem sentinel_never_wins_amended {T : Type} (st : Store T) (f : T → Int) (r r2 : T)
    (hmem : r2 ∈ eachVisits st.db) :
    (minSafeInteger < f r2 → f r = minSafeInteger → r ∉ getBestByScore st.db f) ∧
      (minSafeInteger < st.strategy r2 → st.strategy r = minSafeInteger →
        r ∉ getBestWiki st) := by
  constructor
  · intro hgt hr hin
    rw [getBestByScore_eq_filter] at hin
    have hd := (List.mem_filter.mp hin).2
    have heq : f r = maxFrom f minSafeInteger (eachVisits st.db) := of_decide_eq_true hd
    have hle : f r2 ≤ maxFrom f minSafeInteger (eachVisits st.db) :=
      mem_le_maxFrom f _ minSafeInteger r2 hmem
    omega
  · intro hgt hr hin
    rw [getBestWiki_eq, getBestByScore_eq_filter] at hin
    have hd := (List.mem_filter.mp hin).2
    have heq : st.strategy r = maxFrom st.strategy minSafeInteger (eachVisits st.db) :=
      of_decide_eq_true hd
    have hle : st.strategy r2 ≤ maxFrom st.strategy minSafeInteger (eachVisits st.db) :=
      mem_le_maxFrom st.strategy _ minSafeInteger r2 hmem
    omega

def strongRec : Creature := { id := "e", attack := 5 }

def dbSentinelMix : JsObject Creature := applyAll Creature.id [sentinelRec, strongRec]

def storeSentinelMix : Store Creature :=
  { db := dbSentinelMix, strategy := attackScore, preSubs := [], readSubs := [] }

/-- Witness for C7: with a sentinel-scored record and a record scoring 5
stored together as own entries, neither query returns the sentinel-scored
record. -/
theorem sentinel_never_wins_amended_witness :
    strongRec ∈ eachVisits storeSentinelMix.db ∧
      (minSafeInteger < attackScore strongRec ∧
        attackScore sentinelRec = minSafeInteger ∧
        sentinelRec ∉ getBestByScore storeSentinelMix.db attackScore) ∧
      (minSafeInteger < storeSentinelMix.strategy strongRec ∧
        storeSentinelMix.strategy sentinelRec = minSafeInteger ∧
        sentinelRec ∉ getBestWiki storeSentinelMix) :=
  ⟨by decide,
    ⟨by decide, by decide,
      (sentinel_never_wins_amended storeSentinelMix attackScore sentinelRec strongRec
        (by decide)).1 (by decide) (by decide)⟩,
    ⟨by decide, by decide,
      (sentinel_never_wins_amended storeSentinelMix attackScore sentinelRec strongRec
        (by decide)).2 (by decide) (by decide)⟩⟩

def keyTwoRec : Creature := { id := "2", attack := 0 }

def keyOneRec : Creature := { id := "1", attack := 7 }

def dbNumericKeys : JsObject Creature := applyAll Creature.id [keyTwoRec, keyOneRec]

/-- Counterexample to C8 as stated, in two parts. Ids "2" then "1" are
set in that order, so insertion order is ["2", "1"], but both are
array-index-like string ids and `each` visits the record with id "1"
first. And a set with the fresh plain id "__proto__" appends nothing:
the record goes to the prototype slot and `each` visits no record at
all. -/
theorem each_insertion_order_cex :
    dbNumericKeys.own.map (fun p => p.2) = [keyTwoRec, keyOneRec] ∧
      eachVisits dbNumericKeys = [keyOneRec, keyTwoRec] ∧
      eachVisits dbNumericKeys ≠ [keyTwoRec, keyOneRec] ∧
      toArrayIndex protoKey = none ∧
      eachVisits (applyAll Creature.id [protoRec]) = [] ∧
      ([] : List Creature) ≠ [protoRec] := by
  decide

/-- Claim C8 (amended): provided no stored id is an array-index-like
string, `each` visits each own-stored record once, in insertion order;
for an id other than "__proto__", a set with a new id appends that id at
the end of the key sequence and a set re-using an existing id replaces
the value without changing the key sequence at all; a set with the id
"__proto__" (when no own entry shadows it) creates no own entry — the
record goes to the prototype slot and `each` never visits it.
(Array-index-like ids — canonical decimal numerals below `2 ^ 32 - 1` —
are instead visited first, in ascending numeric order, as the
counterexample shows.) -/
theorem each_insertion_order_amended {T : Type} (idOf : T → String)
    (obj : JsObject T) (item : T) :
    ((∀ p ∈ obj.own, toArrayIndex p.1 = none) →
        eachVisits obj = obj.own.map (fun p => p.2)) ∧
      (idOf item ≠ protoKey →
        (dbSet idOf obj item).own.map (fun p => p.1) =
          (if obj.own.any (fun p => p.1 = idOf item) then obj.own.map (fun p => p.1)
            else obj.own.map (fun p => p.1) ++ [idOf item])) ∧
      (idOf item = protoKey → obj.own.any (fun p => p.1 = protoKey) = false →
        (dbSet idOf obj item).own = obj.own ∧
          (dbSet idOf obj item).proto = some item) := by
  refine ⟨?_, ?_, ?_⟩
  · intro hkeys
    exact values_of_no_index obj.own hkeys
  · intro hp
    unfold dbSet
    by_cases hany : obj.own.any (fun p => p.1 = idOf item) = true
    · rw [if_pos hany, if_pos hany]
      show (obj.own.map (fun p => if p.1 = idOf item then (idOf item, item) else p)).map
          (fun p => p.1) = _
      rw [List.map_map]
      apply List.map_congr_left
      intro p hp2
      by_cases hp1 : p.1 = idOf item
      · simp [Function.comp, hp1]
      · simp [Function.comp, hp1]
    · rw [if_neg hany, if_neg hp, if_neg hany]
      show (obj.own ++ [(idOf item, item)]).map (fun p => p.1) = _
      rw [List.map_append]
      rfl
  · intro hp hany
    unfold dbSet
    rw [if_neg (by simp [hp, hany]), if_pos hp]
    exact ⟨rfl, rfl⟩

/-- Witness for C8 on a store of four plain-string ids, plus the
"__proto__" case. -/
theorem each_insertion_order_amended_witness :
    allKeysPlain dbTie = true ∧
      Creature.id recB ≠ protoKey ∧
      eachVisits dbTie = dbTie.own.map (fun p => p.2) ∧
      ((dbSet Creature.id dbTie recB).own.map (fun p => p.1) =
        (if dbTie.own.any (fun p => p.1 = Creature.id recB) then dbTie.own.map (fun p => p.1)
          else dbTie.own.map (fun p => p.1) ++ [Creature.id recB])) ∧
      (Creature.id protoRec = protoKey ∧
        dbTie.own.any (fun p => p.1 = protoKey) = false ∧
        (dbSet Creature.id dbTie protoRec).own = dbTie.own ∧
        (dbSet Creature.id dbTie protoRec).proto = some protoRec) :=
  ⟨by decide, by decide,
    (each_insertion_order_amended Creature.id dbTie recB).1 (by decide),
    (each_insertion_order_amended Creature.id dbTie recB).2.1 (by decide),
    ⟨by decide, by decide,
      ((each_insertion_order_amended Creature.id dbTie protoRec).2.2
        (by decide) (by decide)).1,
      ((each_insertion_order_amended Creature.id dbTie protoRec).2.2
        (by decide) (by decide)).2⟩⟩
